import Mathlib

/-!
Verification of the multi-provider YouTube resolution/download subsystem
(`alicex/platforms/Youtube.py` and `config.py`).

Python strings are embedded as `List Char` (abbreviated `Str`); Python
`None`-able values as `Option`; machine integers as `Int`/`Nat`.
-/

set_option linter.unusedVariables false

/-- Python `str` values are embedded as lists of characters. -/
abbrev Str := List Char

/-- Whitespace class used by Python `str.strip()` (ASCII subset). -/
def wsChar (c : Char) : Bool := c = ' ' || c = '\t' || c = '\n' || c = '\r'

/-- The decimal digit character for `d` (meaningful for `d < 10`);
embeds the digits produced by Python `str(int)`. -/
def digitChar (d : Nat) : Char := Char.ofNat (48 + d)

/-- Fuel-indexed decimal rendering; the fuel only drives structural
recursion and is adequate whenever `n ≤ fuel`. -/
def natReprGo (fuel n : Nat) : List Char :=
  match fuel with
  | 0 => [digitChar n]
  | fuel + 1 =>
      if n < 10 then [digitChar n]
      else natReprGo fuel (n / 10) ++ [digitChar (n % 10)]

/-- Decimal rendering of a natural number, embedding Python `str(n)`
for `n ≥ 0` (also the behaviour of an f-string field like `{hours}`). -/
def natReprAux (n : Nat) : List Char := natReprGo n n

/-- Decimal rendering of an integer, embedding Python `str(i)`. -/
def intRepr (i : Int) : Str :=
  if i < 0 then '-' :: natReprAux i.natAbs else natReprAux i.toNat

/-- Zero-pad to two digits, embedding the f-string field `{n:02d}` for `n ≥ 0`. -/
def pad2 (n : Nat) : Str :=
  if n < 10 then '0' :: natReprAux n else natReprAux n

/-- Accumulating decimal parse; `none` on the first non-digit character. -/
def parseDigitsAux (acc : Nat) : List Char → Option Nat
  | [] => some acc
  | c :: rest =>
      if c.isDigit then parseDigitsAux (acc * 10 + (c.toNat - 48)) rest
      else none

/-- Parse a non-empty all-digit string to a natural number. -/
def parseDigits (l : List Char) : Option Nat :=
  if l = [] then none else parseDigitsAux 0 l

/-- Drop trailing characters satisfying the whitespace class
(the right half of Python `str.strip()`). -/
def dropTrailingWs : List Char → List Char
  | [] => []
  | c :: rest =>
      let r := dropTrailingWs rest
      if r = [] && wsChar c then [] else c :: r

/-- Python `str.strip()`: remove leading and trailing whitespace. -/
def pyStrip (s : Str) : Str := dropTrailingWs (s.dropWhile wsChar)

/-- Sign handling of Python `int(s)` on an already-stripped string. -/
def pyIntStripped : List Char → Option Int
  | [] => none
  | c :: ds =>
      if c = '-' then (parseDigits ds).map (fun n => -(n : Int))
      else if c = '+' then (parseDigits ds).map (fun n => (n : Int))
      else (parseDigits (c :: ds)).map (fun n => (n : Int))

/-- Python `int(s)` on a decimal string with optional sign and
surrounding whitespace; `none` embeds the `ValueError` raised on
malformed input. -/
def pyInt (s : Str) : Option Int := pyIntStripped (pyStrip s)

/-- Python `s.split(":")`: split into (possibly empty) colon-free chunks. -/
def splitColon : List Char → List (List Char)
  | [] => [[]]
  | c :: rest =>
      if c = ':' then [] :: splitColon rest
      else
        match splitColon rest with
        | [] => [[c]]
        | h :: t => (c :: h) :: t

/-- Horner-form evaluation of duration components with base 60; applied to
the reversed component list it computes `Σ component_i * 60 ^ i`. -/
def hornerSum : List Int → Int
  | [] => 0
  | v :: rest => v + 60 * hornerSum rest

/-- Parse each colon-separated component with `int(...)`; `none` if any fails. -/
def parseComponents : List Str → Option (List Int)
  | [] => some []
  | c :: rest =>
      match pyInt c, parseComponents rest with
      | some v, some vs => some (v :: vs)
      | _, _ => none

/-- `config.time_to_seconds`:
`sum(int(x) * 60**i for i, x in enumerate(reversed(str(time).split(":"))))`.
`none` embeds the exception raised when a component is not an integer. -/
def time_to_seconds (s : Str) : Option Int :=
  (parseComponents (splitColon s)).map (fun vs => hornerSum vs.reverse)

/-- Input shapes accepted by `safe_duration_format` (`None`, `str`, `int`).
Non-integral numbers enter the model through the numeric-string branch. -/
inductive DurIn where
  | dnone : DurIn
  | dstr (s : Str) : DurIn
  | dint (n : Int) : DurIn
deriving DecidableEq

/-- Substring membership test, embedding Python `sub in s`. -/
def containsSub (sep : List Char) : List Char → Bool
  | [] => sep.isPrefixOf []
  | c :: rest => sep.isPrefixOf (c :: rest) || containsSub sep rest

/-- The numeric branch of `safe_duration_format`
(`duration = int(duration); if duration <= 0: "0:00" ...`). -/
def safe_duration_format_num (n : Int) : Str :=
  if n ≤ 0 then "0:00".data
  else
    let t := n.toNat
    let hours := t / 3600
    let minutes := (t % 3600) / 60
    let seconds := t % 60
    if 0 < hours then
      natReprAux hours ++ ':' :: (pad2 minutes ++ ':' :: pad2 seconds)
    else
      natReprAux minutes ++ ':' :: pad2 seconds

/-- Magnitude part of Python `float(s)` restricted to the decimal grammar
`digits [ "." digits ]` (at least one digit); the returned value is the
integer part, i.e. the result of the subsequent `int(...)` truncation. -/
def parseMag (l : Str) : Option Nat :=
  if containsSub ['.'] l then
    let a := l.takeWhile (fun c => c ≠ '.')
    let b := (l.dropWhile (fun c => c ≠ '.')).drop 1
    if a.all Char.isDigit && b.all Char.isDigit &&
        !(containsSub ['.'] b) && !(a.isEmpty && b.isEmpty) then
      if a.isEmpty then some 0 else parseDigits a
    else none
  else if !l.isEmpty && l.all Char.isDigit then parseDigits l else none

/-- Python `int(float(s))` for a decimal numeric string (optional sign,
optional fractional part): truncation toward zero.  `none` embeds the
`ValueError` of `float(s)` on anything outside the modelled grammar. -/
def pyFloatInt (s : Str) : Option Int :=
  match pyStrip s with
  | [] => none
  | c :: ds =>
      if c = '-' then (parseMag ds).map (fun n => -(n : Int))
      else if c = '+' then (parseMag ds).map (fun n => (n : Int))
      else (parseMag (c :: ds)).map (fun n => (n : Int))

/-- `MultiLibraryYouTubeAPI.safe_duration_format`, source lines 117-149. -/
def safe_duration_format : DurIn → Str
  | .dnone => "0:00".data
  | .dstr s =>
      if s = "None".data ∨ s = [] then "0:00".data
      else if containsSub [':'] s then s
      else
        match pyFloatInt s with
        | some n => safe_duration_format_num n
        | none => "0:00".data
  | .dint n => safe_duration_format_num n

/-- Seconds value computed by `details` from a display string:
`int(time_to_seconds(duration_min)) if duration_min and duration_min != "0:00"
else 0`, with the surrounding `except` clause yielding `0`. -/
def details_seconds (dm : Str) : Int :=
  if dm = [] ∨ dm = "0:00".data then 0
  else (time_to_seconds dm).getD 0

/-- The (display, seconds) pair the spec's Duration Normalizer produces:
display from `safe_duration_format`, seconds recovered as in `details`. -/
def normalize_pair (d : DurIn) : Str × Int :=
  let dm := safe_duration_format d
  (dm, details_seconds dm)

/-- Part of `l` before the first occurrence of the substring `sep`
(whole list if absent): Python `l.split(sep)[0]`. -/
def takeUntil (sep : List Char) : List Char → List Char
  | [] => []
  | c :: rest =>
      if sep.isPrefixOf (c :: rest) then [] else c :: takeUntil sep rest

/-- `MultiLibraryYouTubeAPI.clean_url`, source lines 96-102:
truncate at the first `&`, then at `?list=`, then strip whitespace. -/
def clean_url (link : Str) : Str :=
  let l1 := if containsSub ['&'] link then takeUntil ['&'] link else link
  let l2 := if containsSub "?list=".data l1 then takeUntil "?list=".data l1 else l1
  pyStrip l2

/-- Characters removed by the first substitution of `safe_filename`
(the regex class of special characters). -/
def forbiddenChar (c : Char) : Bool :=
  c = '<' || c = '>' || c = ':' || c = '"' || c = '/' || c = '\\' ||
  c = '|' || c = '?' || c = '*'

/-- Character class of the second substitution of `safe_filename`
(regex whitespace or a hyphen). -/
def shChar (c : Char) : Bool := wsChar c || c = '-'

/-- A helper bound used to justify termination of `collapseRuns`. -/
theorem length_dropWhile_le_self (p : Char → Bool) (l : List Char) :
    (l.dropWhile p).length ≤ l.length := by
  induction l with
  | nil => simp [List.dropWhile]
  | cons c rest ih =>
      by_cases h : p c
      · simp [List.dropWhile, h]
        omega
      · simp [List.dropWhile, h]

/-- Fuel-indexed run collapsing; the fuel is adequate whenever
`l.length ≤ fuel` and only drives structural recursion. -/
def collapseGo (fuel : Nat) (l : List Char) : List Char :=
  match fuel with
  | 0 => []
  | fuel + 1 =>
      match l with
      | [] => []
      | c :: rest =>
          if shChar c then '_' :: collapseGo fuel (rest.dropWhile shChar)
          else c :: collapseGo fuel rest

/-- Replace every maximal run of whitespace/hyphen characters by a single
underscore: the substitution of regex `[\s\-]+` with `_`. -/
def collapseRuns (l : List Char) : List Char := collapseGo l.length l

/-- `MultiLibraryYouTubeAPI.safe_filename`, source lines 720-730. -/
def safe_filename (filename : Str) : Str :=
  if filename = [] then "unknown".data
  else
    let s1 := filename.filter (fun c => !forbiddenChar c)
    let s2 := collapseRuns s1
    let s3 := s2.take 100
    if s3 = [] then "unknown".data else s3

/-- The regex identifier class `[0-9A-Za-z_-]` of `extract_video_id`. -/
def isIdChar (c : Char) : Bool := c.isAlphanum || c = '_' || c = '-'

/-- Try to read exactly 11 identifier characters at the current position:
the capture group `([0-9A-Za-z_-]{11})`. -/
def grab11 (l : Str) : Option Str :=
  let t := l.take 11
  if t.length = 11 && t.all isIdChar then some t else none

/-- Leftmost search of the first `extract_video_id` pattern
`(?:v=|\/)([0-9A-Za-z_-]{11}).*`. -/
def find_pat1 : Str → Option Str
  | [] => none
  | c :: rest =>
      if ("v=".data).isPrefixOf (c :: rest) then
        match grab11 (rest.drop 1) with
        | some i => some i
        | none => find_pat1 rest
      else if c = '/' then
        match grab11 rest with
        | some i => some i
        | none => find_pat1 rest
      else find_pat1 rest

/-- Leftmost search of a fixed-token pattern `(?:tok)([0-9A-Za-z_-]{11})`,
used for the `embed/` and `youtu.be/` forms. -/
def find_tok (tok : Str) : Str → Option Str
  | [] => none
  | c :: rest =>
      if tok.isPrefixOf (c :: rest) then
        match grab11 ((c :: rest).drop tok.length) with
        | some i => some i
        | none => find_tok tok rest
      else find_tok tok rest

/-- `MultiLibraryYouTubeAPI.extract_video_id`, source lines 151-163:
ordered patterns, first match wins, `""` when none applies. -/
def extract_video_id (url : Str) : Str :=
  match find_pat1 url with
  | some i => i
  | none =>
      match find_tok "embed/".data url with
      | some i => i
      | none =>
          match find_tok "youtu.be/".data url with
          | some i => i
          | none => []

/-- The canonical search-result record each adapter builds (the dict with
keys title/id/duration/thumbnails/link/channel/viewCount).  Every key is
structurally present; `Option` marks values that may be Python `None`. -/
structure MediaRec where
  title : Option Str
  vid : Option Str
  duration : Str
  thumbnails : List (Option Str)
  link : Str
  channelName : Option Str
  viewCountText : Str
deriving DecidableEq

/-- A raw yt-dlp / youtube-dl entry dict.  The outer `Option` is key
presence (`none` = key absent), the inner one is the stored value
(`none` = key present holding `None`). -/
structure YtdlpEntry where
  id : Option (Option Str)
  title : Option (Option Str)
  duration : Option DurIn
  thumbnail : Option (Option Str)
  uploader : Option (Option Str)
  view_count : Option (Option Int)
deriving DecidableEq

/-- Python `dict.get(key, default)`: the default applies only when the key
is absent; a stored `None` is returned as-is. -/
def pyGet {α : Type} (field : Option (Option α)) (dflt : α) : Option α :=
  match field with
  | none => some dflt
  | some v => v

/-- Python `dict.get(key)` with no default. -/
def pyGetN {α : Type} (field : Option (Option α)) : Option α :=
  field.getD none

/-- Truthiness of an optional string (`None` and `""` are falsy). -/
def truthyOptStr (v : Option Str) : Bool :=
  match v with
  | none => false
  | some s => !s.isEmpty

/-- Rendering of a possibly-`None` string inside an f-string. -/
def optStrRender (v : Option Str) : Str :=
  match v with
  | none => "None".data
  | some s => s

/-- Python `str(x)` for a possibly-`None` integer. -/
def pyStrOfInt (v : Option Int) : Str :=
  match v with
  | none => "None".data
  | some n => intRepr n

/-- The record built per entry by `search_with_ytdlp` (source lines
244-254) and identically by `search_with_youtube_dl` (lines 293-303). -/
def mk_entry_rec (e : YtdlpEntry) : MediaRec :=
  { title := pyGet e.title "Unknown".data
    vid := pyGet e.id "".data
    duration := safe_duration_format (e.duration.getD .dnone)
    thumbnails := [pyGet e.thumbnail "".data]
    link := "https://www.youtube.com/watch?v=".data ++ optStrRender (pyGetN e.id)
    channelName := pyGet e.uploader "Unknown".data
    viewCountText := pyStrOfInt (pyGet e.view_count 0) }

/-- The entry loop of `search_with_ytdlp`: keep the first `limit` entries
whose `id` is truthy and map each through the record builder. -/
def ytdlp_results (entries : List YtdlpEntry) (limit : Nat) : List MediaRec :=
  ((entries.take limit).filter (fun e => truthyOptStr (pyGetN e.id))).map mk_entry_rec

/-- The pytube attributes consumed by `search_with_pytube`; each may be
`None` when the backend leaves it unresolved. -/
structure PytubeVideo where
  title : Option Str
  video_id : Option Str
  length : Option Int
  thumbnail_url : Option Str
  author : Option Str
  views : Option Int
deriving DecidableEq

/-- The record built by `search_with_pytube` (source lines 178-200):
backend attribute values are copied through without defaults. -/
def mk_pytube_rec (v : PytubeVideo) : MediaRec :=
  { title := v.title
    vid := v.video_id
    duration := safe_duration_format
      (match v.length with | none => .dnone | some n => .dint n)
    thumbnails := [v.thumbnail_url]
    link := "https://www.youtube.com/watch?v=".data ++ optStrRender v.video_id
    channelName := v.author
    viewCountText := pyStrOfInt v.views }

/-- `MultiLibraryYouTubeAPI.multi_library_search`, source lines 344-372.
Each list element is one adapter invocation in priority order:
`Except.error` embeds a raised exception, `Except.ok r` a returned
result list.  The orchestrator skips failures and empty lists and
returns the first non-empty list verbatim; exhaustion yields `[]`. -/
def multi_library_search : List (Except Str (List MediaRec)) → List MediaRec
  | [] => []
  | .error _ :: rest => multi_library_search rest
  | .ok r :: rest => if r.isEmpty then multi_library_search rest else r

/-- An adapter invocation that raised, or returned no results. -/
def failedAttempt (o : Except Str (List MediaRec)) : Prop :=
  (∃ e, o = .error e) ∨ o = .ok []

/-- Python list indexing `l[i]` with negative-index wraparound;
`none` embeds the `IndexError`. -/
def py_index (l : List MediaRec) (i : Int) : Option MediaRec :=
  if 0 ≤ i then l.get? i.toNat
  else if -(l.length : Int) ≤ i then l.get? ((l.length : Int) + i).toNat
  else none

/-- The tuple returned by `slider` when anything goes out of range
(`"Unknown", "0:00", "", ""`). -/
def slider_sentinel : Option Str × Str × Str × Option Str :=
  (some "Unknown".data, "0:00".data, "".data, some "".data)

/-- `MultiLibraryYouTubeAPI.slider`, source lines 697-718, applied to the
result list the orchestrator produced.  The `Option` in the first and
last components records that a stored `None` flows through `dict.get`.
Exception paths (bad index, empty thumbnail list, `None.split`) are the
`except` clause and yield the sentinel. -/
def slider (query_type : Int) (result : List MediaRec) :
    Option Str × Str × Str × Option Str :=
  if query_type < (result.length : Int) then
    match py_index result query_type with
    | none => slider_sentinel
    | some video =>
        match video.thumbnails with
        | [] => slider_sentinel
        | t :: _ =>
            match t with
            | none => slider_sentinel
            | some u =>
                (video.title, video.duration,
                  u.takeWhile (fun c => c ≠ '?'), video.vid)
  else slider_sentinel

/-- Path `downloads/<vid>.<ext>` used by the id-templated downloads. -/
def dl_path (vid ext : Str) : Str :=
  "downloads/".data ++ vid ++ '.' :: ext

/-- First extension in `exts` whose `downloads/<vid>.<ext>` file exists. -/
def probe_exts (fs : List Str) (vid : Str) : List Str → Option Str
  | [] => none
  | e :: rest =>
      if dl_path vid e ∈ fs then some (dl_path vid e) else probe_exts fs vid rest

/-- `audio_dl`, source lines 788-816: probe the existing files for the
extracted id before downloading; the second component counts backend
download invocations.  `fs` is the downloads directory before the call,
`fsAfter` after a download. -/
def audio_dl (fs fsAfter : List Str) (vid fileExt : Str) : Str × Nat :=
  match probe_exts fs vid [fileExt, "webm".data, "mp4".data, "m4a".data, "opus".data] with
  | some p => (p, 0)
  | none =>
      match probe_exts fsAfter vid ["webm".data, "mp4".data, "m4a".data, "opus".data] with
      | some p => (p, 1)
      | none => (dl_path vid fileExt, 1)

/-- The yt-dlp format selector of `video_dl` (source line 822). -/
def video_dl_format : Str :=
  "(bestvideo[height<=?720][width<=?1280][ext=mp4])+(bestaudio[ext=m4a])/best[height<=?720]".data

/-- The format selector passed to the `yt-dlp -g` subprocess
(source lines 894 and 517). -/
def stream_format : Str := "best[height<=?720][width<=?1280]".data

/-- `video_dl`, source lines 818-839: reuse `downloads/<id>.mp4` when it
exists, otherwise download; second component counts download calls. -/
def video_dl (fs : List Str) (vid : Str) : Str × Nat :=
  if dl_path vid "mp4".data ∈ fs then (dl_path vid "mp4".data, 0)
  else (dl_path vid "mp4".data, 1)

/-- `song_audio_dl`, source lines 859-878: title-templated MP3 export.
The downloads directory `fs` is accepted for observational parity but the
source never consults it — the backend download always runs. -/
def song_audio_dl (fs : List Str) (title : Option Str) : Str × Nat :=
  let st := match title with
    | some t => safe_filename t
    | none => "unknown".data
  (dl_path st "mp3".data, 1)

/-- `song_video_dl`, source lines 841-857: title-templated MP4 export;
like `song_audio_dl` it never consults the downloads directory. -/
def song_video_dl (fs : List Str) (title : Option Str) : Str × Nat :=
  let st := match title with
    | some t => safe_filename t
    | none => "unknown".data
  (dl_path st "mp4".data, 1)

/-- Observable outcome of the `video` branch of `download`. -/
structure VideoOutcome where
  location : Str
  localFile : Bool
  fmt : Option Str
  mergeContainer : Option Str
  flagConsults : Nat
  verifySkipped : Bool
deriving DecidableEq

/-- The verification stage (source lines 913-916) is skipped exactly when
the returned location starts with `"http"`. -/
def verify_skip (loc : Str) : Bool := ("http".data).isPrefixOf loc

/-- Modelled from the spec: `is_on_off` (from `alicex.utils.database`, not
under the sources at hand) is the external feature-flag lookup
`isFeatureEnabled(flagId)`; here its result for flag id 1 enters as the
boolean `flagOn`.  Per the source branch structure, the flag being ON
selects the local merged download, so the spec's "direct-streaming
enabled" state is the flag being OFF. -/
def direct_streaming_enabled (flagOn : Bool) : Bool := !flagOn

/-- The video path of `download`, source lines 764-785 and 886-918.
`pytubeFile` is the outcome of the pytube-first attempt (`none` when
pytube is unavailable or its download failed); `flagOn` the feature-flag
value; `fs` the downloads directory; `vid` the backend id; `streamUrl`
the URL the `yt-dlp -g` subprocess would print. -/
def download_video (pytubeFile : Option Str) (flagOn : Bool) (fs : List Str)
    (vid : Str) (streamUrl : Str) : VideoOutcome :=
  match pytubeFile with
  | some f =>
      { location := f, localFile := true, fmt := none, mergeContainer := none,
        flagConsults := 0, verifySkipped := true }
  | none =>
      if flagOn then
        { location := (video_dl fs vid).1, localFile := true,
          fmt := some video_dl_format, mergeContainer := some "mp4".data,
          flagConsults := 1,
          verifySkipped := verify_skip (video_dl fs vid).1 }
      else
        { location := streamUrl, localFile := false,
          fmt := some stream_format, mergeContainer := none,
          flagConsults := 1, verifySkipped := verify_skip streamUrl }

/- ### Decimal-string lemmas -/

theorem digitChar_isDigit {d : Nat} (h : d < 10) : (digitChar d).isDigit = true := by
  interval_cases d <;> decide

theorem digitChar_toNat {d : Nat} (h : d < 10) : (digitChar d).toNat - 48 = d := by
  interval_cases d <;> decide

theorem digitChar_not_ws {d : Nat} (h : d < 10) : wsChar (digitChar d) = false := by
  interval_cases d <;> decide

theorem digitChar_ne_colon {d : Nat} (h : d < 10) : digitChar d ≠ ':' := by
  interval_cases d <;> decide

theorem digitChar_ne_minus {d : Nat} (h : d < 10) : digitChar d ≠ '-' := by
  interval_cases d <;> decide

theorem digitChar_ne_plus {d : Nat} (h : d < 10) : digitChar d ≠ '+' := by
  interval_cases d <;> decide

theorem natReprGo_ne_nil (fuel n : Nat) : natReprGo fuel n ≠ [] := by
  cases fuel with
  | zero => simp [natReprGo]
  | succ fuel =>
      by_cases h : n < 10 <;> simp [natReprGo, h]

theorem mem_natReprGo {fuel n : Nat} (hf : n ≤ fuel) :
    ∀ c ∈ natReprGo fuel n, ∃ d, d < 10 ∧ c = digitChar d := by
  induction fuel generalizing n with
  | zero =>
      intro c hc
      simp [natReprGo] at hc
      exact ⟨n, by omega, hc⟩
  | succ fuel ih =>
      intro c hc
      by_cases h : n < 10
      · simp [natReprGo, h] at hc
        exact ⟨n, h, hc⟩
      · simp only [natReprGo, if_neg h, List.mem_append, List.mem_singleton] at hc
        rcases hc with hc | hc
        · exact ih (n := n / 10) (by omega) c hc
        · exact ⟨n % 10, Nat.mod_lt _ (by omega), hc⟩

theorem parseDigitsAux_append (xs ys : List Char) (acc : Nat) :
    parseDigitsAux acc (xs ++ ys) =
      (parseDigitsAux acc xs).bind (fun a => parseDigitsAux a ys) := by
  induction xs generalizing acc with
  | nil => simp [parseDigitsAux]
  | cons c xs ih =>
      by_cases h : c.isDigit
      · simp [parseDigitsAux, h, ih]
      · simp [parseDigitsAux, h]

theorem parseDigitsAux_some {xs : List Char} {acc a : Nat}
    (hx : parseDigitsAux acc xs = some a) (ys : List Char) :
    parseDigitsAux acc (xs ++ ys) = parseDigitsAux a ys := by
  rw [parseDigitsAux_append, hx]
  rfl

theorem parseDigitsAux_single (acc : Nat) {c : Char} (h : c.isDigit = true) :
    parseDigitsAux acc [c] = some (acc * 10 + (c.toNat - 48)) := by
  simp only [parseDigitsAux]
  rw [if_pos h]

theorem parseDigitsAux_natReprGo {fuel n : Nat} (hf : n ≤ fuel) (acc : Nat) :
    parseDigitsAux acc (natReprGo fuel n) =
      some (acc * 10 ^ (natReprGo fuel n).length + n) := by
  induction fuel generalizing n acc with
  | zero =>
      have hn : n = 0 := by omega
      subst hn
      have h1 : (digitChar 0).isDigit = true := by decide
      have h2 : (digitChar 0).toNat - 48 = 0 := by decide
      simp [natReprGo, parseDigitsAux, h1, h2]
  | succ fuel ih =>
      by_cases h : n < 10
      · have h1 := digitChar_isDigit h
        have h2 := digitChar_toNat h
        simp [natReprGo, h, parseDigitsAux, h1, h2]
      · have hdiv : n / 10 ≤ fuel := by omega
        have hmod : n % 10 < 10 := Nat.mod_lt _ (by omega)
        have h1 := digitChar_isDigit hmod
        have h2 := digitChar_toNat hmod
        simp only [natReprGo, if_neg h]
        rw [parseDigitsAux_some (ih hdiv acc)]
        rw [parseDigitsAux_single _ h1, h2]
        simp only [List.length_append, List.length_singleton]
        rw [pow_succ]
        congr 1
        ring_nf
        omega

theorem parseDigitsAux_natReprAux (n acc : Nat) :
    parseDigitsAux acc (natReprAux n) =
      some (acc * 10 ^ (natReprAux n).length + n) :=
  parseDigitsAux_natReprGo (Nat.le_refl n) acc

theorem parseDigits_natReprAux (n : Nat) : parseDigits (natReprAux n) = some n := by
  unfold parseDigits
  rw [if_neg (show ¬(natReprAux n = []) from natReprGo_ne_nil n n)]
  rw [parseDigitsAux_natReprAux n 0]
  simp

theorem dropWhile_eq_self_of {p : Char → Bool} {l : List Char}
    (h : ∀ c ∈ l, p c = false) : l.dropWhile p = l := by
  cases l with
  | nil => rfl
  | cons c rest => simp [List.dropWhile, h c (by simp)]

theorem dropTrailingWs_eq_self {l : List Char}
    (h : ∀ c ∈ l, wsChar c = false) : dropTrailingWs l = l := by
  induction l with
  | nil => rfl
  | cons c rest ih =>
      have hr : dropTrailingWs rest = rest := ih (fun x hx => h x (by simp [hx]))
      simp [dropTrailingWs, hr, h c (by simp)]

theorem pyStrip_eq_self {l : List Char}
    (h : ∀ c ∈ l, wsChar c = false) : pyStrip l = l := by
  unfold pyStrip
  rw [dropWhile_eq_self_of h, dropTrailingWs_eq_self h]

theorem mem_natReprAux {n : Nat} :
    ∀ c ∈ natReprAux n, ∃ d, d < 10 ∧ c = digitChar d :=
  mem_natReprGo (Nat.le_refl n)

theorem natReprAux_ne_nil (n : Nat) : natReprAux n ≠ [] :=
  natReprGo_ne_nil n n

theorem natReprAux_no_ws (n : Nat) : ∀ c ∈ natReprAux n, wsChar c = false := by
  intro c hc
  obtain ⟨d, hd, rfl⟩ := mem_natReprAux c hc
  exact digitChar_not_ws hd

theorem pyInt_natReprAux (n : Nat) : pyInt (natReprAux n) = some (n : Int) := by
  unfold pyInt
  rw [pyStrip_eq_self (natReprAux_no_ws n)]
  obtain ⟨c, r, hcr⟩ : ∃ c r, natReprAux n = c :: r := by
    cases h : natReprAux n with
    | nil => exact absurd h (natReprAux_ne_nil n)
    | cons c r => exact ⟨c, r, rfl⟩
  obtain ⟨d, hd, hcd⟩ := mem_natReprAux c (by rw [hcr]; simp)
  rw [hcr]
  simp only [pyIntStripped]
  rw [if_neg (by rw [hcd]; exact digitChar_ne_minus hd),
    if_neg (by rw [hcd]; exact digitChar_ne_plus hd)]
  rw [← hcr, parseDigits_natReprAux]
  rfl

theorem pad2_all_digitChar (m : Nat) :
    ∀ c ∈ pad2 m, ∃ d, d < 10 ∧ c = digitChar d := by
  intro c hc
  unfold pad2 at hc
  by_cases h : m < 10
  · rw [if_pos h] at hc
    rcases List.mem_cons.mp hc with hc | hc
    · exact ⟨0, by omega, by rw [hc]; decide⟩
    · exact mem_natReprAux c hc
  · rw [if_neg h] at hc
    exact mem_natReprAux c hc

theorem pyInt_pad2 (m : Nat) : pyInt (pad2 m) = some (m : Int) := by
  by_cases h : m < 10
  · unfold pyInt
    have hws : ∀ c ∈ pad2 m, wsChar c = false := by
      intro c hc
      obtain ⟨d, hd, rfl⟩ := pad2_all_digitChar m c hc
      exact digitChar_not_ws hd
    rw [pyStrip_eq_self hws]
    unfold pad2
    rw [if_pos h]
    simp only [pyIntStripped]
    rw [if_neg (by decide), if_neg (by decide)]
    unfold parseDigits
    rw [if_neg (by simp)]
    have h0 : ('0' : Char).isDigit = true := by decide
    have h0' : ('0' : Char).toNat - 48 = 0 := by decide
    simp only [parseDigitsAux, h0, if_true, h0', Nat.add_zero, Nat.zero_mul]
    rw [parseDigitsAux_natReprAux m 0]
    simp
  · unfold pad2
    rw [if_neg h]
    exact pyInt_natReprAux m

/- ### splitColon and duration round-trip lemmas -/

theorem splitColon_no_colon {l : List Char} (h : ∀ c ∈ l, c ≠ ':') :
    splitColon l = [l] := by
  induction l with
  | nil => rfl
  | cons c rest ih =>
      have hc : c ≠ ':' := h c (by simp)
      have hr := ih (fun x hx => h x (by simp [hx]))
      simp [splitColon, hc, hr]

theorem splitColon_append {xs : List Char} (ys : List Char)
    (h : ∀ c ∈ xs, c ≠ ':') :
    splitColon (xs ++ ':' :: ys) = xs :: splitColon ys := by
  induction xs with
  | nil => simp [splitColon]
  | cons c rest ih =>
      have hc : c ≠ ':' := h c (by simp)
      have hr := ih (fun x hx => h x (by simp [hx]))
      simp [splitColon, hc, hr]

theorem natReprAux_no_colon (n : Nat) : ∀ c ∈ natReprAux n, c ≠ ':' := by
  intro c hc
  obtain ⟨d, hd, rfl⟩ := mem_natReprAux c hc
  exact digitChar_ne_colon hd

theorem pad2_no_colon (m : Nat) : ∀ c ∈ pad2 m, c ≠ ':' := by
  intro c hc
  obtain ⟨d, hd, rfl⟩ := pad2_all_digitChar m c hc
  exact digitChar_ne_colon hd

/-- The display produced for a strictly positive number of seconds parses
back to exactly that number of seconds. -/
theorem tts_format {n : Nat} (hn : 0 < n) :
    time_to_seconds (safe_duration_format_num (n : Int)) = some (n : Int) := by
  unfold safe_duration_format_num
  rw [if_neg (by omega : ¬ ((n : Int) ≤ 0))]
  simp only [Int.toNat_natCast]
  by_cases hh : 0 < n / 3600
  · rw [if_pos hh]
    unfold time_to_seconds
    rw [splitColon_append _ (natReprAux_no_colon _),
      splitColon_append _ (pad2_no_colon _),
      splitColon_no_colon (pad2_no_colon _)]
    simp [parseComponents, pyInt_natReprAux, pyInt_pad2, hornerSum]
    omega
  · rw [if_neg hh]
    unfold time_to_seconds
    rw [splitColon_append _ (natReprAux_no_colon _),
      splitColon_no_colon (pad2_no_colon _)]
    simp [parseComponents, pyInt_natReprAux, pyInt_pad2, hornerSum]
    omega

theorem tts_nil : time_to_seconds ([] : Str) = none := by decide

theorem tts_zero_display : time_to_seconds "0:00".data = some 0 := by decide

/-- C3: for every integer `n ≥ 0` given as a duration in seconds, parsing
the display string produced by the duration normalizer back with
`time_to_seconds` yields `n` again, and the seconds value of the
normalized pair equals `n` (display/seconds round-trip). -/
theorem C3_duration_roundtrip (n : Nat) :
    time_to_seconds (safe_duration_format (DurIn.dint (n : Int))) = some (n : Int) ∧
    (normalize_pair (DurIn.dint (n : Int))).2 = (n : Int) := by
  have hint : safe_duration_format (DurIn.dint (n : Int)) =
      safe_duration_format_num (n : Int) := rfl
  rcases Nat.eq_zero_or_pos n with h0 | hpos
  · subst h0
    exact ⟨by decide, by decide⟩
  · have h := tts_format hpos
    constructor
    · rw [hint]
      exact h
    · show details_seconds (safe_duration_format (DurIn.dint (n : Int))) = (n : Int)
      rw [hint]
      unfold details_seconds
      have h1 : ¬(safe_duration_format_num (n : Int) = [] ∨
          safe_duration_format_num (n : Int) = "0:00".data) := by
        rintro (he | he) <;> rw [he] at h
        · rw [tts_nil] at h
          simp at h
        · rw [tts_zero_display] at h
          simp at h
          omega
      rw [if_neg h1, h]
      rfl

/-- The display format the claim describes, written from the claim's own
words: floor to an integer; `≤ 0` gives `"0:00"`; otherwise
`h = n / 3600`, `m = (n % 3600) / 60`, `s = n % 60`, the hour field is
omitted when `h = 0` (format `M:SS`) and unpadded otherwise, minutes
zero-padded when the hour is shown, seconds always zero-padded. -/
def claim_duration_display (n : Int) : Str :=
  if n ≤ 0 then "0:00".data
  else
    let t := n.toNat
    let h := t / 3600
    let m := (t % 3600) / 60
    let s := t % 60
    if h = 0 then natReprAux m ++ ':' :: pad2 s
    else natReprAux h ++ ':' :: (pad2 m ++ ':' :: pad2 s)

theorem sdf_num_eq_claim (n : Int) :
    safe_duration_format_num n = claim_duration_display n := by
  unfold safe_duration_format_num claim_duration_display
  by_cases h : n ≤ 0
  · simp only [if_pos h]
  · simp only [if_neg h]
    by_cases hh : n.toNat / 3600 = 0
    · rw [if_neg (show ¬ (0 < n.toNat / 3600) by omega), if_pos hh]
    · rw [if_pos (show 0 < n.toNat / 3600 by omega), if_neg hh]

/-- C4: every integer duration (and every numeric decimal string, whose
float conversion truncates to an integer) is displayed per the claim's
format rules, and the three claimed example pairs hold. -/
theorem C4_numeric_display :
    (∀ n : Int, safe_duration_format (DurIn.dint n) = claim_duration_display n) ∧
    (∀ (s : Str) (m : Int), pyFloatInt s = some m → s ≠ "None".data → s ≠ [] →
      containsSub [':'] s = false →
      safe_duration_format (DurIn.dstr s) = claim_duration_display m) ∧
    normalize_pair (DurIn.dint 3725) = ("1:02:05".data, 3725) ∧
    normalize_pair (DurIn.dint 65) = ("1:05".data, 65) ∧
    normalize_pair (DurIn.dint 0) = ("0:00".data, 0) := by
  refine ⟨fun n => sdf_num_eq_claim n, ?_, by decide, by decide, by decide⟩
  intro s m hp hN hE hC
  show (if s = "None".data ∨ s = [] then "0:00".data
    else if containsSub [':'] s then s
    else match pyFloatInt s with
      | some n => safe_duration_format_num n
      | none => "0:00".data) = _
  rw [if_neg (by tauto)]
  rw [if_neg (by simp [hC])]
  rw [hp]
  exact sdf_num_eq_claim m

/-- Witness for C4 at the numeric string `"90.5"` (truncating to 90). -/
theorem C4_numeric_display_witness :
    safe_duration_format (DurIn.dstr "90.5".data) = claim_duration_display 90 :=
  C4_numeric_display.2.1 "90.5".data 90 (by decide) (by decide) (by decide)
    (by decide)

/- ### C2: resolution orchestrator -/

theorem mls_all_fail (outcomes : List (Except Str (List MediaRec)))
    (h : ∀ o ∈ outcomes, failedAttempt o) :
    multi_library_search outcomes = [] := by
  induction outcomes with
  | nil => rfl
  | cons o rest ih =>
      have hrest := ih (fun x hx => h x (by simp [hx]))
      rcases h o (by simp) with ⟨e, rfl⟩ | rfl
      · simpa [multi_library_search] using hrest
      · simpa [multi_library_search] using hrest

theorem mls_first_success (pre : List (Except Str (List MediaRec)))
    (r : List MediaRec) (post : List (Except Str (List MediaRec)))
    (hpre : ∀ o ∈ pre, failedAttempt o) (hr : r ≠ []) :
    multi_library_search (pre ++ Except.ok r :: post) = r := by
  induction pre with
  | nil =>
      have he : r.isEmpty = false := by
        cases r with
        | nil => exact absurd rfl hr
        | cons a t => rfl
      simp [multi_library_search, he]
  | cons o pre ih =>
      have hrest := ih (fun x hx => hpre x (by simp [hx]))
      rcases hpre o (by simp) with ⟨e, rfl⟩ | rfl
      · simpa [multi_library_search] using hrest
      · simpa [multi_library_search] using hrest

/-- C2: the orchestrator scans adapter invocations strictly in priority
order, skips raising adapters, returns the first non-empty result list
verbatim, and returns `[]` (never raising) when every adapter raises or
returns no results. -/
theorem C2_orchestrator_fallback :
    (∀ outcomes : List (Except Str (List MediaRec)),
      (∀ o ∈ outcomes, failedAttempt o) → multi_library_search outcomes = []) ∧
    (∀ (pre : List (Except Str (List MediaRec))) (r : List MediaRec)
      (post : List (Except Str (List MediaRec))),
      (∀ o ∈ pre, failedAttempt o) → r ≠ [] →
      multi_library_search (pre ++ Except.ok r :: post) = r) :=
  ⟨mls_all_fail, mls_first_success⟩

/-- A sample search-result record used to instantiate witnesses. -/
def sampleRec : MediaRec :=
  { title := some "Never Gonna Give You Up".data
    vid := some "dQw4w9WgXcQ".data
    duration := "3:32".data
    thumbnails := [some "https://i.ytimg.com/vi/dQw4w9WgXcQ/hq720.jpg".data]
    link := "https://www.youtube.com/watch?v=dQw4w9WgXcQ".data
    channelName := some "Rick Astley".data
    viewCountText := "100".data }

/-- Witness for C2: adapter #1 throws and adapter #2 succeeds, so
adapter #2's results come back; with every adapter failing, `[]`. -/
theorem C2_orchestrator_fallback_witness :
    multi_library_search [Except.error "boom".data, Except.ok [sampleRec]] =
      [sampleRec] ∧
    multi_library_search [Except.error "boom".data, Except.ok []] = [] := by
  constructor
  · exact C2_orchestrator_fallback.2 [Except.error "boom".data] [sampleRec] []
      (by
        intro o ho
        simp at ho
        subst ho
        exact Or.inl ⟨"boom".data, rfl⟩)
      (by simp)
  · exact C2_orchestrator_fallback.1 _
      (by
        intro o ho
        simp at ho
        rcases ho with rfl | rfl
        · exact Or.inl ⟨"boom".data, rfl⟩
        · exact Or.inr rfl)

/- ### C7: URL normalization lemmas -/

theorem isPrefixOf_app {sep v : List Char} (u : List Char)
    (h : sep.isPrefixOf v = true) : sep.isPrefixOf (v ++ u) = true := by
  induction sep generalizing v with
  | nil => simp [List.isPrefixOf]
  | cons a as ih =>
      cases v with
      | nil => simp [List.isPrefixOf] at h
      | cons b bs =>
          simp only [List.cons_append, List.isPrefixOf, Bool.and_eq_true,
            beq_iff_eq] at h ⊢
          exact ⟨h.1, ih h.2⟩

theorem contains_nil_left (l : List Char) :
    containsSub ([] : List Char) l = true := by
  cases l <;> simp [containsSub, List.isPrefixOf]

theorem contains_of_tail {sep l : List Char} (c : Char)
    (h : containsSub sep l = true) : containsSub sep (c :: l) = true := by
  show (sep.isPrefixOf (c :: l) || containsSub sep l) = true
  rw [h, Bool.or_true]

theorem contains_app_left {sep a : List Char} (b : List Char)
    (h : containsSub sep a = true) : containsSub sep (a ++ b) = true := by
  induction a with
  | nil =>
      have : sep = [] := by
        cases sep with
        | nil => rfl
        | cons x xs => simp [containsSub, List.isPrefixOf] at h
      rw [this]
      exact contains_nil_left _
  | cons c a ih =>
      show (sep.isPrefixOf (c :: (a ++ b)) || containsSub sep (a ++ b)) = true
      rcases Bool.or_eq_true_iff.mp h with hp | ht
      · rw [show c :: (a ++ b) = (c :: a) ++ b from rfl, isPrefixOf_app b hp,
          Bool.true_or]
      · rw [ih ht, Bool.or_true]

theorem contains_app_right {sep : List Char} (a : List Char) {b : List Char}
    (h : containsSub sep b = true) : containsSub sep (a ++ b) = true := by
  induction a with
  | nil => simpa using h
  | cons c a ih => exact contains_of_tail c ih

theorem not_contains_app_left {sep a b : List Char}
    (h : containsSub sep (a ++ b) = false) : containsSub sep a = false := by
  cases hx : containsSub sep a with
  | false => rfl
  | true => rw [contains_app_left b hx] at h; cases h

theorem not_contains_app_right {sep a b : List Char}
    (h : containsSub sep (a ++ b) = false) : containsSub sep b = false := by
  cases hx : containsSub sep b with
  | false => rfl
  | true => rw [contains_app_right a hx] at h; cases h

theorem takeUntil_decomp (sep : List Char) (l : List Char) :
    ∃ t, takeUntil sep l ++ t = l := by
  induction l with
  | nil => exact ⟨[], rfl⟩
  | cons c rest ih =>
      by_cases h : sep.isPrefixOf (c :: rest) = true
      · refine ⟨c :: rest, ?_⟩
        simp only [takeUntil]
        rw [if_pos h]
        rfl
      · obtain ⟨t, ht⟩ := ih
        refine ⟨t, ?_⟩
        simp only [takeUntil]
        rw [if_neg h]
        simp [ht]

theorem dropTrailingWs_decomp (l : List Char) :
    ∃ t, dropTrailingWs l ++ t = l := by
  induction l with
  | nil => exact ⟨[], rfl⟩
  | cons c rest ih =>
      by_cases h : dropTrailingWs rest = [] ∧ wsChar c = true
      · refine ⟨c :: rest, ?_⟩
        simp [dropTrailingWs, h.1, h.2]
      · obtain ⟨t, ht⟩ := ih
        refine ⟨t, ?_⟩
        have hcond : (decide (dropTrailingWs rest = []) && wsChar c) = false := by
          rcases not_and_or.mp h with h1 | h1
          · simp [h1]
          · simp [Bool.not_eq_true] at h1
            simp [h1]
        simp only [dropTrailingWs]
        rw [if_neg (by simp [hcond])]
        simp [ht]

theorem takeUntil_not_contains {sep : List Char} (hs : sep ≠ []) (l : List Char) :
    containsSub sep (takeUntil sep l) = false := by
  induction l with
  | nil =>
      show containsSub sep [] = false
      cases sep with
      | nil => exact absurd rfl hs
      | cons a as => rfl
  | cons c rest ih =>
      by_cases h : sep.isPrefixOf (c :: rest) = true
      · simp only [takeUntil]
        rw [if_pos h]
        cases sep with
        | nil => exact absurd rfl hs
        | cons a as => rfl
      · simp only [takeUntil]
        rw [if_neg h]
        show (sep.isPrefixOf (c :: takeUntil sep rest) ||
          containsSub sep (takeUntil sep rest)) = false
        rw [ih, Bool.or_false]
        cases hx : sep.isPrefixOf (c :: takeUntil sep rest) with
        | false => rfl
        | true =>
            exfalso
            obtain ⟨t, ht⟩ := takeUntil_decomp sep rest
            have happ := isPrefixOf_app t hx
            rw [List.cons_append, ht] at happ
            exact h happ

theorem not_contains_pyStrip {sep l : List Char}
    (h : containsSub sep l = false) : containsSub sep (pyStrip l) = false := by
  unfold pyStrip
  have h1 : containsSub sep (l.dropWhile wsChar) = false := by
    have hdecomp := List.takeWhile_append_dropWhile (p := wsChar) (l := l)
    exact not_contains_app_right (by rw [hdecomp]; exact h)
  obtain ⟨t, ht⟩ := dropTrailingWs_decomp (l.dropWhile wsChar)
  exact not_contains_app_left (a := dropTrailingWs (l.dropWhile wsChar)) (b := t)
    (by rw [ht]; exact h1)

theorem dropWhile_shape (p : Char → Bool) (l : List Char) :
    l.dropWhile p = [] ∨
      ∃ c r, l.dropWhile p = c :: r ∧ p c = false := by
  induction l with
  | nil => exact Or.inl rfl
  | cons c rest ih =>
      by_cases h : p c = true
      · simpa [List.dropWhile, h] using ih
      · have h' : p c = false := by
          cases hb : p c
          · rfl
          · exact absurd hb h
        exact Or.inr ⟨c, rest, by simp [List.dropWhile, h'], h'⟩

theorem dropTrailingWs_shape (c : Char) (l : List Char) :
    dropTrailingWs (c :: l) = [] ∨
      dropTrailingWs (c :: l) = c :: dropTrailingWs l := by
  by_cases h : dropTrailingWs l = [] ∧ wsChar c = true
  · exact Or.inl (by simp [dropTrailingWs, h.1, h.2])
  · refine Or.inr ?_
    have hcond : (decide (dropTrailingWs l = []) && wsChar c) = false := by
      rcases not_and_or.mp h with h1 | h1
      · simp [h1]
      · simp [Bool.not_eq_true] at h1
        simp [h1]
    simp only [dropTrailingWs]
    rw [if_neg (by simp [hcond])]

theorem dropTrailingWs_idem (l : List Char) :
    dropTrailingWs (dropTrailingWs l) = dropTrailingWs l := by
  induction l with
  | nil => rfl
  | cons c rest ih =>
      rcases dropTrailingWs_shape c rest with h | h
      · rw [h]
        rfl
      · rw [h]
        rcases dropTrailingWs_shape c (dropTrailingWs rest) with h2 | h2
        · -- `c :: dropTrailingWs rest` strips to `[]` only when the inner
          -- strip is `[]` and `c` is whitespace, which contradicts `h`
          exfalso
          by_cases hcond : dropTrailingWs (dropTrailingWs rest) = [] ∧
              wsChar c = true
          · have hnil : dropTrailingWs rest = [] := by
              rw [← ih]
              exact hcond.1
            simp only [dropTrailingWs] at h
            rw [if_pos (by simp [hnil, hcond.2])] at h
            simp at h
          · have hc : (decide (dropTrailingWs (dropTrailingWs rest) = []) &&
                wsChar c) = false := by
              rcases not_and_or.mp hcond with h1 | h1
              · simp [h1]
              · simp [Bool.not_eq_true] at h1
                simp [h1]
            simp only [dropTrailingWs] at h2
            rw [if_neg (by simp [hc])] at h2
            simp at h2
        · rw [h2, ih]

theorem pyStrip_idem (l : List Char) : pyStrip (pyStrip l) = pyStrip l := by
  unfold pyStrip
  have hdw : (dropTrailingWs (l.dropWhile wsChar)).dropWhile wsChar =
      dropTrailingWs (l.dropWhile wsChar) := by
    rcases dropWhile_shape wsChar l with h | ⟨c, r, h, hc⟩
    · rw [h]
      rfl
    · rw [h]
      rcases dropTrailingWs_shape c r with h2 | h2
      · rw [h2]
        rfl
      · rw [h2]
        simp [List.dropWhile, hc]
  rw [hdw, dropTrailingWs_idem]

theorem step_self_no (sep : List Char) (hs : sep ≠ []) (l : Str) :
    containsSub sep (if containsSub sep l then takeUntil sep l else l) = false := by
  by_cases hb : containsSub sep l = true
  · rw [if_pos hb]
    exact takeUntil_not_contains hs l
  · rw [if_neg hb]
    cases hx : containsSub sep l with
    | false => rfl
    | true => exact absurd hx hb

theorem step_preserve {sep : List Char} (sep2 : List Char) {l : Str}
    (h : containsSub sep l = false) :
    containsSub sep (if containsSub sep2 l then takeUntil sep2 l else l) = false := by
  by_cases hb : containsSub sep2 l = true
  · rw [if_pos hb]
    obtain ⟨t, ht⟩ := takeUntil_decomp sep2 l
    exact not_contains_app_left (b := t) (by rw [ht]; exact h)
  · rw [if_neg hb]
    exact h

theorem clean_url_of_clean (y : Str) (h1 : containsSub ['&'] y = false)
    (h2 : containsSub "?list=".data y = false) : clean_url y = pyStrip y := by
  have h2' : containsSub ['?', 'l', 'i', 's', 't', '='] y = false := h2
  simp only [clean_url]
  rw [if_neg (show ¬(containsSub ['&'] y = true) by simp [h1])]
  rw [if_neg (show ¬(containsSub ['?', 'l', 'i', 's', 't', '='] y = true) by
    simp [h2'])]

/-- C7: URL normalization truncates at the first `&`, then at `?list=`,
then trims whitespace; it is idempotent, and the claimed example strips
both the playlist context and the trailing parameters. -/
theorem C7_clean_url_idempotent :
    (∀ x : Str, clean_url (clean_url x) = clean_url x) ∧
    clean_url "https://youtu.be/abc123XYZ_-?list=PL1&t=30".data =
      "https://youtu.be/abc123XYZ_-".data := by
  constructor
  · intro x
    set l1 := (if containsSub ['&'] x then takeUntil ['&'] x else x) with hl1
    set l2 := (if containsSub "?list=".data l1 then takeUntil "?list=".data l1
      else l1) with hl2
    have hcx : clean_url x = pyStrip l2 := rfl
    have hamp1 : containsSub ['&'] l1 = false := by
      rw [hl1]
      exact step_self_no ['&'] (by decide) x
    have hamp2 : containsSub ['&'] l2 = false := by
      rw [hl2]
      exact step_preserve "?list=".data hamp1
    have hql2 : containsSub "?list=".data l2 = false := by
      rw [hl2]
      exact step_self_no _ (by decide) l1
    rw [hcx]
    rw [clean_url_of_clean (pyStrip l2) (not_contains_pyStrip hamp2)
      (not_contains_pyStrip hql2)]
    exact pyStrip_idem l2
  · decide

/- ### C8: filename sanitizer -/

theorem mem_of_mem_dropWhile {p : Char → Bool} {l : List Char} {c : Char}
    (h : c ∈ l.dropWhile p) : c ∈ l := by
  have hd := List.takeWhile_append_dropWhile (p := p) (l := l)
  rw [← hd]
  exact List.mem_append_right _ h

theorem mem_of_take {l : List Char} {n : Nat} {c : Char} (h : c ∈ l.take n) :
    c ∈ l := by
  have hd := List.take_append_drop n l
  rw [← hd]
  exact List.mem_append_left _ h

theorem mem_collapseGo {fuel : Nat} {l : List Char} :
    ∀ c ∈ collapseGo fuel l, c = '_' ∨ c ∈ l := by
  induction fuel generalizing l with
  | zero =>
      intro c hc
      simp [collapseGo] at hc
  | succ fuel ih =>
      cases l with
      | nil =>
          intro c hc
          simp [collapseGo] at hc
      | cons a rest =>
          intro c hc
          by_cases h : shChar a = true
          · simp only [collapseGo, if_pos h] at hc
            rcases List.mem_cons.mp hc with rfl | hc
            · exact Or.inl rfl
            · rcases ih c hc with h' | h'
              · exact Or.inl h'
              · exact Or.inr (List.mem_cons_of_mem a (mem_of_mem_dropWhile h'))
          · simp only [collapseGo, if_neg h] at hc
            rcases List.mem_cons.mp hc with rfl | hc
            · exact Or.inr (List.mem_cons_self _ _)
            · rcases ih c hc with h' | h'
              · exact Or.inl h'
              · exact Or.inr (List.mem_cons_of_mem _ h')

theorem sh_collapseGo {fuel : Nat} {l : List Char} (hf : l.length ≤ fuel) :
    ∀ c ∈ collapseGo fuel l, shChar c = false := by
  induction fuel generalizing l with
  | zero =>
      intro c hc
      simp [collapseGo] at hc
  | succ fuel ih =>
      cases l with
      | nil =>
          intro c hc
          simp [collapseGo] at hc
      | cons a rest =>
          intro c hc
          have hlen : rest.length ≤ fuel := by
            simp [List.length_cons] at hf
            omega
          by_cases h : shChar a = true
          · simp only [collapseGo, if_pos h] at hc
            rcases List.mem_cons.mp hc with rfl | hc
            · decide
            · have hlen2 : (rest.dropWhile shChar).length ≤ fuel := by
                have := length_dropWhile_le_self shChar rest
                omega
              exact ih hlen2 c hc
          · simp only [collapseGo, if_neg h] at hc
            rcases List.mem_cons.mp hc with rfl | hc
            · cases hb : shChar c with
              | false => rfl
              | true => exact absurd hb h
            · exact ih hlen c hc

theorem safe_filename_eq (s : Str) (h0 : s ≠ []) :
    safe_filename s =
      (if (collapseRuns (s.filter (fun c => !forbiddenChar c))).take 100 = []
        then "unknown".data
        else (collapseRuns (s.filter (fun c => !forbiddenChar c))).take 100) := by
  unfold safe_filename
  rw [if_neg h0]

/-- C8: for every input string the filename sanitizer's output contains
none of the characters the claim forbids, contains no whitespace or
hyphen character (runs having been replaced by single underscores), is at
most 100 characters long, and is never empty. -/
theorem C8_safe_filename (s : Str) :
    (∀ c ∈ safe_filename s, forbiddenChar c = false) ∧
    (∀ c ∈ safe_filename s, shChar c = false) ∧
    (safe_filename s).length ≤ 100 ∧
    safe_filename s ≠ [] := by
  by_cases h0 : s = []
  · have he : safe_filename s = "unknown".data := by
      unfold safe_filename
      rw [if_pos h0]
    rw [he]
    exact ⟨by decide, by decide, by decide, by decide⟩
  · rw [safe_filename_eq s h0]
    by_cases h3 : (collapseRuns (s.filter (fun c => !forbiddenChar c))).take 100 = []
    · rw [if_pos h3]
      exact ⟨by decide, by decide, by decide, by decide⟩
    · rw [if_neg h3]
      refine ⟨?_, ?_, List.length_take_le _ _, h3⟩
      · intro c hc
        have hc' : c ∈ collapseRuns (s.filter (fun c => !forbiddenChar c)) :=
          mem_of_take hc
        unfold collapseRuns at hc'
        rcases mem_collapseGo c hc' with rfl | hcf
        · decide
        · have hmem := List.mem_filter.mp hcf
          simpa using hmem.2
      · intro c hc
        have hc' : c ∈ collapseRuns (s.filter (fun c => !forbiddenChar c)) :=
          mem_of_take hc
        unfold collapseRuns at hc'
        exact sh_collapseGo (Nat.le_refl _) c hc'

/- ### C9: video id extraction -/

theorem grab11_spec {l i : Str} (h : grab11 l = some i) :
    i.length = 11 ∧ i.all isIdChar = true := by
  simp only [grab11] at h
  by_cases hc : ((l.take 11).length = 11 && (l.take 11).all isIdChar) = true
  · rw [if_pos hc] at h
    obtain rfl := Option.some.inj h
    simpa [Bool.and_eq_true, decide_eq_true_eq] using hc
  · rw [if_neg hc] at h
    exact Option.noConfusion h

theorem find_pat1_spec {url i : Str} (h : find_pat1 url = some i) :
    i.length = 11 ∧ i.all isIdChar = true := by
  induction url with
  | nil => simp [find_pat1] at h
  | cons c rest ih =>
      simp only [find_pat1] at h
      by_cases h1 : ("v=".data).isPrefixOf (c :: rest) = true
      · rw [if_pos h1] at h
        cases hg : grab11 (rest.drop 1) with
        | some j =>
            rw [hg] at h
            obtain rfl := Option.some.inj h
            exact grab11_spec hg
        | none =>
            rw [hg] at h
            exact ih h
      · rw [if_neg h1] at h
        by_cases h2 : c = '/'
        · rw [if_pos h2] at h
          cases hg : grab11 rest with
          | some j =>
              rw [hg] at h
              obtain rfl := Option.some.inj h
              exact grab11_spec hg
          | none =>
              rw [hg] at h
              exact ih h
        · rw [if_neg h2] at h
          exact ih h

theorem find_tok_spec (tok : Str) {url i : Str} (h : find_tok tok url = some i) :
    i.length = 11 ∧ i.all isIdChar = true := by
  induction url with
  | nil => simp [find_tok] at h
  | cons c rest ih =>
      simp only [find_tok] at h
      by_cases h1 : tok.isPrefixOf (c :: rest) = true
      · rw [if_pos h1] at h
        cases hg : grab11 ((c :: rest).drop tok.length) with
        | some j =>
            rw [hg] at h
            obtain rfl := Option.some.inj h
            exact grab11_spec hg
        | none =>
            rw [hg] at h
            exact ih h
      · rw [if_neg h1] at h
        exact ih h

/-- C9: `extract_video_id` tries the ordered patterns (the `v=`/slash
form, then `embed/`, then `youtu.be/`), returns the first match — which
is always an 11-character identifier — and returns `""` when no pattern
matches. -/
theorem C9_extract_video_id (url : Str) :
    (∀ i, find_pat1 url = some i → extract_video_id url = i) ∧
    (find_pat1 url = none → ∀ i, find_tok "embed/".data url = some i →
      extract_video_id url = i) ∧
    (find_pat1 url = none → find_tok "embed/".data url = none →
      ∀ i, find_tok "youtu.be/".data url = some i → extract_video_id url = i) ∧
    (find_pat1 url = none → find_tok "embed/".data url = none →
      find_tok "youtu.be/".data url = none → extract_video_id url = []) ∧
    (extract_video_id url = [] ∨
      ((extract_video_id url).length = 11 ∧
        (extract_video_id url).all isIdChar = true)) := by
  refine ⟨?_, ?_, ?_, ?_, ?_⟩
  · intro i hi
    unfold extract_video_id
    rw [hi]
  · intro hp i hi
    unfold extract_video_id
    rw [hp, hi]
  · intro hp he i hi
    unfold extract_video_id
    rw [hp, he, hi]
  · intro hp he hy
    unfold extract_video_id
    rw [hp, he, hy]
  · cases hp : find_pat1 url with
    | some i =>
        right
        unfold extract_video_id
        rw [hp]
        exact find_pat1_spec hp
    | none =>
        cases he : find_tok "embed/".data url with
        | some i =>
            right
            unfold extract_video_id
            rw [hp, he]
            exact find_tok_spec _ he
        | none =>
            cases hy : find_tok "youtu.be/".data url with
            | some i =>
                right
                unfold extract_video_id
                rw [hp, he, hy]
                exact find_tok_spec _ hy
            | none =>
                left
                unfold extract_video_id
                rw [hp, he, hy]

/-- Witness for C9 on a standard watch URL. -/
theorem C9_extract_video_id_witness :
    extract_video_id "https://www.youtube.com/watch?v=dQw4w9WgXcQ".data =
      "dQw4w9WgXcQ".data :=
  (C9_extract_video_id _).1 _ (by decide)

/- ### C10: slider out-of-range behaviour -/

/-- C10: whenever the index is at least the number of search results
(including when there are none), `slider` returns the sentinel tuple
instead of raising an index error. -/
theorem C10_slider_out_of_range (query_type : Int) (result : List MediaRec)
    (h : (result.length : Int) ≤ query_type) :
    slider query_type result = slider_sentinel := by
  unfold slider
  rw [if_neg (by omega)]

/-- Witness for C10 with an empty result list and a positive index. -/
theorem C10_slider_out_of_range_witness :
    slider 5 [] = slider_sentinel ∧ slider 0 [] = slider_sentinel :=
  ⟨C10_slider_out_of_range 5 [] (by decide),
   C10_slider_out_of_range 0 [] (by decide)⟩

/- ### C1: adapter field defaults -/

theorem sdf_num_ne_nil (n : Int) : safe_duration_format_num n ≠ [] := by
  unfold safe_duration_format_num
  by_cases h : n ≤ 0
  · rw [if_pos h]
    decide
  · rw [if_neg h]
    by_cases hh : 0 < n.toNat / 3600
    · rw [if_pos hh]
      intro he
      simp [List.append_eq_nil] at he
    · rw [if_neg hh]
      intro he
      simp [List.append_eq_nil] at he

theorem sdf_ne_nil (d : DurIn) : safe_duration_format d ≠ [] := by
  cases d with
  | dnone => decide
  | dint n => exact sdf_num_ne_nil n
  | dstr s =>
      show (if s = "None".data ∨ s = [] then "0:00".data
        else if containsSub [':'] s then s
        else match pyFloatInt s with
          | some n => safe_duration_format_num n
          | none => "0:00".data) ≠ []
      by_cases h1 : s = "None".data ∨ s = []
      · rw [if_pos h1]
        decide
      · rw [if_neg h1]
        by_cases h2 : containsSub [':'] s = true
        · rw [if_pos h2]
          intro he
          exact h1 (Or.inr he)
        · rw [if_neg h2]
          cases hf : pyFloatInt s with
          | some m => exact sdf_num_ne_nil m
          | none => decide

/-- The entry whose missing/null fields expose the adapter defaults. -/
def c1_entry : YtdlpEntry :=
  { id := some (some "dQw4w9WgXcQ".data)
    title := none
    duration := none
    thumbnail := none
    uploader := some none
    view_count := none }

/-- Counterexample for C1: the emitted record for an entry with a truthy
id, an absent title and a present-but-null uploader carries the default
title `"Unknown"` — not the claimed `"Unknown Title"` — and a null
channel name on an output the adapter does return. -/
theorem C1_counterexample :
    truthyOptStr (pyGetN c1_entry.id) = true ∧
    (mk_entry_rec c1_entry).title = some "Unknown".data ∧
    (mk_entry_rec c1_entry).title ≠ some "Unknown Title".data ∧
    (mk_entry_rec c1_entry).channelName = none := by
  refine ⟨by decide, rfl, by decide, rfl⟩

/-- C1 amended: absent backend fields get the defaults `"Unknown"` (title
and uploader) and `0` (view count) in the yt-dlp/youtube-dl record
builder; every produced record is structurally complete and its duration
display is never empty; the pytube adapter copies backend attribute
values through unchanged (so explicit nulls survive in both builders). -/
theorem C1_adapter_defaults :
    (∀ e : YtdlpEntry,
      (e.title = none → (mk_entry_rec e).title = some "Unknown".data) ∧
      (e.uploader = none → (mk_entry_rec e).channelName = some "Unknown".data) ∧
      (e.view_count = none → (mk_entry_rec e).viewCountText = "0".data) ∧
      (mk_entry_rec e).duration ≠ []) ∧
    (∀ v : PytubeVideo,
      (mk_pytube_rec v).title = v.title ∧
      (mk_pytube_rec v).channelName = v.author ∧
      (mk_pytube_rec v).duration ≠ []) := by
  constructor
  · intro e
    refine ⟨?_, ?_, ?_, ?_⟩
    · intro h
      show pyGet e.title "Unknown".data = some "Unknown".data
      rw [h]
      rfl
    · intro h
      show pyGet e.uploader "Unknown".data = some "Unknown".data
      rw [h]
      rfl
    · intro h
      show pyStrOfInt (pyGet e.view_count 0) = "0".data
      rw [h]
      decide
    · show safe_duration_format (e.duration.getD DurIn.dnone) ≠ []
      exact sdf_ne_nil _
  · intro v
    refine ⟨rfl, rfl, ?_⟩
    show safe_duration_format
      (match v.length with | none => DurIn.dnone | some n => DurIn.dint n) ≠ []
    exact sdf_ne_nil _

/-- Witness for the amended C1 at the concrete entry `c1_entry`. -/
theorem C1_adapter_defaults_witness :
    (mk_entry_rec c1_entry).title = some "Unknown".data ∧
    (mk_entry_rec c1_entry).viewCountText = "0".data :=
  ⟨(C1_adapter_defaults.1 c1_entry).1 rfl,
   (C1_adapter_defaults.1 c1_entry).2.2.1 rfl⟩

/- ### C5: feature flag in the video download path -/

theorem video_dl_fst (fs : List Str) (vid : Str) :
    (video_dl fs vid).1 = dl_path vid "mp4".data := by
  unfold video_dl
  split <;> rfl

theorem verify_skip_dl_path (vid ext : Str) :
    verify_skip (dl_path vid ext) = false := rfl

/-- Counterexample for C5: with the pytube-first attempt succeeding, the
video download returns without consulting the feature flag at all. -/
theorem C5_counterexample :
    (download_video (some "downloads/x.mp4".data) true []
      "x".data "https://e".data).flagConsults = 0 ∧
    (download_video (some "downloads/x.mp4".data) false []
      "x".data "https://e".data).flagConsults = 0 := ⟨rfl, rfl⟩

/-- C5 amended: only when the pytube-first attempt is unavailable or has
failed is the external feature flag consulted, exactly once; then with
direct-streaming selected the executor returns the stream URL, produces
no local file and skips Verifying, and otherwise it downloads with the
capped-720p merge format into a local `downloads/<id>.mp4` and does not
skip Verifying; a successful pytube attempt returns without any flag
consultation. -/
theorem C5_video_flag (flagOn : Bool) (fs : List Str) (vid streamUrl : Str)
    (hurl : ("http".data).isPrefixOf streamUrl = true) :
    (download_video none flagOn fs vid streamUrl).flagConsults = 1 ∧
    (direct_streaming_enabled flagOn = true →
      (download_video none flagOn fs vid streamUrl).location = streamUrl ∧
      (download_video none flagOn fs vid streamUrl).localFile = false ∧
      (download_video none flagOn fs vid streamUrl).verifySkipped = true) ∧
    (direct_streaming_enabled flagOn = false →
      (download_video none flagOn fs vid streamUrl).localFile = true ∧
      (download_video none flagOn fs vid streamUrl).location =
        dl_path vid "mp4".data ∧
      (download_video none flagOn fs vid streamUrl).fmt =
        some video_dl_format ∧
      (download_video none flagOn fs vid streamUrl).mergeContainer =
        some "mp4".data ∧
      (download_video none flagOn fs vid streamUrl).verifySkipped = false) ∧
    (∀ f : Str,
      (download_video (some f) flagOn fs vid streamUrl).flagConsults = 0) := by
  refine ⟨?_, ?_, ?_, fun f => rfl⟩
  · cases flagOn <;> rfl
  · intro hd
    have hf : flagOn = false := by
      cases flagOn
      · rfl
      · simp [direct_streaming_enabled] at hd
    subst hf
    refine ⟨rfl, rfl, ?_⟩
    show verify_skip streamUrl = true
    unfold verify_skip
    exact hurl
  · intro hd
    have hf : flagOn = true := by
      cases flagOn
      · simp [direct_streaming_enabled] at hd
      · rfl
    subst hf
    refine ⟨rfl, ?_, rfl, rfl, ?_⟩
    · show (video_dl fs vid).1 = dl_path vid "mp4".data
      exact video_dl_fst fs vid
    · show verify_skip (video_dl fs vid).1 = false
      rw [video_dl_fst]
      exact verify_skip_dl_path vid ("mp4".data)

/-- Witness for the amended C5: flag off yields the direct stream URL with
one flag consultation. -/
theorem C5_video_flag_witness :
    (download_video none false [] "abc".data "https://cdn".data).location =
      "https://cdn".data ∧
    (download_video none false [] "abc".data "https://cdn".data).flagConsults =
      1 :=
  ⟨((C5_video_flag false [] "abc".data "https://cdn".data (by decide)).2.1
      rfl).1,
   (C5_video_flag false [] "abc".data "https://cdn".data (by decide)).1⟩

/- ### C6: idempotent cache-by-id reuse -/

/-- Counterexample for C6: for the named-song audio mode the exact
artifact path the executor returns already exists in the downloads
directory, yet the backend download is still invoked (count 1, not 0). -/
theorem C6_counterexample :
    (song_audio_dl [dl_path "My_Song".data "mp3".data]
      (some "My Song".data)).1 = dl_path "My_Song".data "mp3".data ∧
    dl_path "My_Song".data "mp3".data ∈ [dl_path "My_Song".data "mp3".data] ∧
    (song_audio_dl [dl_path "My_Song".data "mp3".data]
      (some "My Song".data)).2 = 1 := by
  refine ⟨by decide, by decide, rfl⟩

/-- C6 amended: the id-templated modes reuse an existing
`downloads/<id>.<ext>` without invoking the backend download again
(`audio_dl` and `video_dl` return invocation count 0 on a cache hit),
while the named-song modes always invoke the backend download exactly
once even when the matching artifact already exists. -/
theorem C6_cache_by_id :
    (∀ (fs fsAfter : List Str) (vid ext : Str), dl_path vid ext ∈ fs →
      audio_dl fs fsAfter vid ext = (dl_path vid ext, 0)) ∧
    (∀ (fs : List Str) (vid : Str), dl_path vid "mp4".data ∈ fs →
      video_dl fs vid = (dl_path vid "mp4".data, 0)) ∧
    (∀ (fs : List Str) (title : Option Str), (song_audio_dl fs title).2 = 1) ∧
    (∀ (fs : List Str) (title : Option Str), (song_video_dl fs title).2 = 1) := by
  refine ⟨?_, ?_, fun _ _ => rfl, fun _ _ => rfl⟩
  · intro fs fsA vid ext hmem
    have hp : probe_exts fs vid
        [ext, "webm".data, "mp4".data, "m4a".data, "opus".data] =
        some (dl_path vid ext) := by
      unfold probe_exts
      rw [if_pos hmem]
    unfold audio_dl
    rw [hp]
  · intro fs vid hmem
    unfold video_dl
    rw [if_pos hmem]

/-- Witness for the amended C6 on concrete cache hits. -/
theorem C6_cache_by_id_witness :
    audio_dl [dl_path "x".data "webm".data] [] "x".data "webm".data =
      (dl_path "x".data "webm".data, 0) ∧
    video_dl [dl_path "x".data "mp4".data] "x".data =
      (dl_path "x".data "mp4".data, 0) :=
  ⟨C6_cache_by_id.1 _ _ _ _ (by decide), C6_cache_by_id.2.1 _ _ (by decide)⟩
